import Mathlib

/-!
Shallow embedding of `smeargle.py`, a minimal 2D raster drawing library with a
PNG container encoder, together with theorems checking its specification.

Modelling conventions:
* Python `int` is `Int` (`Nat` where a value is a byte or an index produced by
  `range`); Python `float` arithmetic in `draw_line` (true division `/`) is
  modelled exactly over `ℚ`.
* Python list indexing `xs[k]` resolves a nonnegative `k < len` to position
  `k`, a negative `k ≥ -len` to position `len + k`, and raises `IndexError`
  otherwise; `pyIdx` embeds exactly that, and fallible operations return
  `Option` (`none` = a raised exception).
* A `Pixel` is the 4-tuple `(r, g, b, a)`; tuple iteration order (used by the
  scanline encoder) is r, g, b, a.  Channel values are modelled as `Nat`
  byte values.
* `zlib.compress` is an external opaque primitive and is passed as a function
  parameter; `zlib.crc32` is the standard reflected CRC-32 (polynomial
  0xEDB88320, initial value and final xor 0xFFFFFFFF) and is defined here.
* `struct.pack` of a `>I` field is the 4 big-endian bytes of the value
  (callers here stay below 2^32, where `u32be` agrees with `struct.pack`).
-/

/-- Pixel, a 4-tuple of channel values in the order red, green, blue, alpha
(Python `Pixel = Tuple[int, ...]`; the values used are bytes). -/
abbrev Pixel := Nat × Nat × Nat × Nat

def BLACK : Pixel := (0, 0, 0, 255)

def WHITE : Pixel := (255, 255, 255, 255)

def RED : Pixel := (255, 0, 0, 255)

def GREEN : Pixel := (0, 255, 0, 255)

def BLUE : Pixel := (0, 0, 255, 255)

def PURPLE : Pixel := (255, 0, 255, 255)

def BLANK : Pixel := (0, 0, 0, 0)

/-- ColorType enumeration from the source. -/
inductive ColorType where
  | RGB
  | RGBA
deriving DecidableEq

/-- Numeric value of a `ColorType` member (`RGB = 2`, `RGBA = 6`). -/
def ColorType.value : ColorType → Nat
  | .RGB => 2
  | .RGBA => 6

/-- Vec2, a 2D integer point (`x` is used as a column, `y` as a row, except
for the documented quirk in `draw_circle`). -/
structure Vec2 where
  x : Int
  y : Int
deriving DecidableEq

/-- Image: width and height fields plus the row-major pixel grid `_data`
(`data` here).  The constructor stores its arguments without validation. -/
structure Image where
  width : Int
  height : Int
  data : List (List Pixel)
deriving DecidableEq

/-- Image.__init__ with the default `data=None`: `height` rows of `width`
copies of `BLANK` (`range` of a negative number is empty, hence `toNat`).
No dimension check of any kind is performed. -/
def Image.init (width height : Int) : Image :=
  ⟨width, height, List.replicate height.toNat (List.replicate width.toNat BLANK)⟩

/-- Image.init wrapped in `Option` to record that the constructor can raise
no exception: it always returns the canvas. -/
def Image.initOpt (width height : Int) : Option Image :=
  some (Image.init width height)

/-- Python list index resolution for a list of length `n`: nonnegative
indices below `n` are used as-is, negative indices not below `-n` wrap to
`n + i`, anything else raises `IndexError` (`none`). -/
def pyIdx (n : Nat) (i : Int) : Option Nat :=
  if 0 ≤ i ∧ i < (n : Int) then some i.toNat
  else if -(n : Int) ≤ i ∧ i < 0 then some ((n : Int) + i).toNat
  else none

/-- Image.draw: `self[y][x] = color`.  The row is resolved first (a bad row
raises before `x` is even looked at), then the column within that row. -/
def Image.draw (img : Image) (y x : Int) (color : Pixel) : Option Image := do
  let iy ← pyIdx img.data.length y
  let row ← img.data[iy]?
  let ix ← pyIdx row.length x
  some { img with data := img.data.set iy (row.set ix color) }

/-- Image.__getitem__: `self[y]`, one row. -/
def Image.getRow (img : Image) (y : Int) : Option (List Pixel) := do
  let iy ← pyIdx img.data.length y
  img.data[iy]?

/-- Pixel read `self[y][x]` (Image.__getitem__ followed by list indexing). -/
def Image.read (img : Image) (y x : Int) : Option Pixel := do
  let row ← img.getRow y
  let ix ← pyIdx row.length x
  row[ix]?

/-- Spec-side total pixel accessor at nonnegative indices (`none` when the
address is outside the grid).  Used only to state theorems. -/
def Image.pix (img : Image) (i j : Nat) : Option Pixel :=
  img.data[i]?.bind (fun row => row[j]?)

/-- Inner rasterizer loop: `for j in range(len(self[i]))`, already unrolled to
start at column `j` with `k` iterations remaining; each covered pixel goes
through `Image.draw` exactly as in the source. -/
def drawLoopJ (pred : Nat → Nat → Bool) (color : Pixel) (i : Nat) :
    Nat → Nat → Image → Option Image
  | _, 0, img => some img
  | j, k + 1, img => do
      let img' ← if pred i j then img.draw (i : Int) (j : Int) color else some img
      drawLoopJ pred color i (j + 1) k img'

/-- One row of the rasterizer scan: look up `len(self[i])` from the current
state, then run the inner loop over all its columns. -/
def drawRowI (pred : Nat → Nat → Bool) (color : Pixel) (i : Nat) (img : Image) :
    Option Image := do
  let row ← img.getRow (i : Int)
  drawLoopJ pred color i 0 row.length img

/-- Outer rasterizer loop: `for i in range(len(self))`, starting at row `i`
with `k` iterations remaining. -/
def drawLoopI (pred : Nat → Nat → Bool) (color : Pixel) :
    Nat → Nat → Image → Option Image
  | _, 0, img => some img
  | i, k + 1, img => do
      let img' ← drawRowI pred color i img
      drawLoopI pred color (i + 1) k img'

/-- The scan strategy shared by all four rasterizers: visit every pixel
address of the canvas and write `color` where `pred row col` holds. -/
def scanFill (pred : Nat → Nat → Bool) (color : Pixel) (img : Image) :
    Option Image :=
  drawLoopI pred color 0 img.data.length img

/-- Image.draw_rect: inclusive axis-aligned box test
`j >= pos.x and j <= pos.x + length and i >= pos.y and i <= pos.y + height`. -/
def Image.draw_rect (img : Image) (pos : Vec2) (length height : Int)
    (color : Pixel) : Option Image :=
  scanFill (fun i j =>
    decide (pos.x ≤ (j : Int) ∧ (j : Int) ≤ pos.x + length ∧
      pos.y ≤ (i : Int) ∧ (i : Int) ≤ pos.y + height)) color img

/-- Image.draw_circle: `(i-pos.x)*(i-pos.x) + (j-pos.y)*(j-pos.y) <= radius*radius`
with `i` the row and `j` the column (the documented axis-pairing quirk:
`pos.x` is compared against the row, `pos.y` against the column). -/
def Image.draw_circle (img : Image) (pos : Vec2) (radius : Int)
    (color : Pixel) : Option Image :=
  scanFill (fun i j =>
    decide (((i : Int) - pos.x) * ((i : Int) - pos.x) +
      ((j : Int) - pos.y) * ((j : Int) - pos.y) ≤ radius * radius)) color img

/-- Image.draw_line: `m = (p1.y - p2.y)/(p1.x - p2.x)` raises
`ZeroDivisionError` when `p1.x == p2.x` (modelled by the leading branch,
before any pixel is visited); otherwise the float slope/intercept arithmetic
is modelled exactly over `ℚ`, and `thickness//2` is Python floor division. -/
def Image.draw_line (img : Image) (p1 p2 : Vec2) (thickness : Int)
    (color : Pixel) : Option Image :=
  if p1.x = p2.x then none
  else
    let m : ℚ := ((p1.y - p2.y : Int) : ℚ) / ((p1.x - p2.x : Int) : ℚ)
    let c : ℚ := (p1.y : ℚ) - m * (p1.x : ℚ)
    scanFill (fun i j =>
      decide (m * (j : ℚ) + c - ((thickness.fdiv 2 : Int) : ℚ) ≤ (i : ℚ) ∧
        (i : ℚ) ≤ m * (j : ℚ) + c + ((thickness.fdiv 2 : Int) : ℚ))) color img

/-- The edge function from Image.draw_triangle:
`(p2.x - p1.x)*(p3.y - p1.y) - (p2.y - p1.y)*(p3.x - p1.x)`. -/
def edgeFunction (a b p : Vec2) : Int :=
  (b.x - a.x) * (p.y - a.y) - (b.y - a.y) * (p.x - a.x)

/-- Image.draw_triangle: the pixel at row `i`, column `j` is the point
`p = Vec2(j, i)`; it is filled when all three edge values are `≥ 0`. -/
def Image.draw_triangle (img : Image) (p1 p2 p3 : Vec2) (color : Pixel) :
    Option Image :=
  scanFill (fun i j =>
    decide (0 ≤ edgeFunction p1 p2 ⟨(j : Int), (i : Int)⟩ ∧
      0 ≤ edgeFunction p2 p3 ⟨(j : Int), (i : Int)⟩ ∧
      0 ≤ edgeFunction p3 p1 ⟨(j : Int), (i : Int)⟩)) color img

/-- Total description of one scanned row: position `x` (counting from the
offset `j` at the list's head) becomes `color` when `pred x` holds. -/
def paintRowFrom (pred : Nat → Bool) (color : Pixel) : Nat → List Pixel → List Pixel
  | _, [] => []
  | j, px :: rest => (if pred j then color else px) :: paintRowFrom pred color (j + 1) rest

/-- Total description of the whole scan: row `a` (counting from the offset
`i`) is repainted by `paintRowFrom (pred a) color 0`. -/
def paintFrom (pred : Nat → Nat → Bool) (color : Pixel) :
    Nat → List (List Pixel) → List (List Pixel)
  | _, [] => []
  | i, row :: rest => paintRowFrom (pred i) color 0 row :: paintFrom pred color (i + 1) rest

/-- The canvas after a full scan with predicate `pred` and fill `color`. -/
def Image.paint (pred : Nat → Nat → Bool) (color : Pixel) (img : Image) : Image :=
  { img with data := paintFrom pred color 0 img.data }

/-- One bit step of the reflected CRC-32 used by zlib (polynomial
0xEDB88320): shift right, xor the polynomial when the low bit was set. -/
def crcBit (r : Nat) : Nat :=
  if r % 2 = 1 then (r / 2) ^^^ 0xEDB88320 else r / 2

/-- One byte step of CRC-32: xor the byte into the register, then eight bit
steps (the `% 256` embeds the byte type of the input). -/
def crcByte (r b : Nat) : Nat :=
  crcBit^[8] (r ^^^ (b % 256))

/-- zlib.crc32(data, init): xor in 0xFFFFFFFF, fold the bytes, xor out
0xFFFFFFFF.  zlib's streaming contract `crc32(a + b) = crc32(b, crc32(a))`
is proved below, not assumed. -/
def crc32 (data : List Nat) (init : Nat) : Nat :=
  (data.foldl crcByte (init ^^^ 0xFFFFFFFF)) ^^^ 0xFFFFFFFF

/-- The 4 big-endian bytes of a 32-bit value, as emitted by
`struct.pack` for a `>I` field (values used here are below 2^32). -/
def u32be (n : Nat) : List Nat :=
  [n / 2 ^ 24 % 256, n / 2 ^ 16 % 256, n / 2 ^ 8 % 256, n % 256]

/-- The fixed 8-byte PNG signature `b'\x89PNG\r\n\x1A\n'`. -/
def pngSignature : List Nat := [137, 80, 78, 71, 13, 10, 26, 10]

/-- ASCII bytes of the chunk tag `b'IHDR'`. -/
def ihdrTag : List Nat := [73, 72, 68, 82]

/-- ASCII bytes of the chunk tag `b'IDAT'`. -/
def idatTag : List Nat := [73, 68, 65, 84]

/-- ASCII bytes of the chunk tag `b'IEND'`. -/
def iendTag : List Nat := [73, 69, 78, 68]

/-- PNG._checksum: `zlib.crc32(data, zlib.crc32(chunk_type))`. -/
def PNG.checksum (chunk_type data : List Nat) : Nat :=
  crc32 data (crc32 chunk_type 0)

/-- PNG._gen_chunk: big-endian payload length, tag, payload, big-endian
checksum. -/
def PNG.gen_chunk (chunk_type data : List Nat) : List Nat :=
  u32be data.length ++ chunk_type ++ data ++ u32be (PNG.checksum chunk_type data)

/-- PNG._ihdr: `struct.pack('>2I5B', width, height, bit_depth,
color_type.value, 0, 0, 0)`. -/
def PNG.ihdr (width height bit_depth : Nat) (color_type : ColorType) : List Nat :=
  u32be width ++ u32be height ++ [bit_depth % 256, color_type.value % 256, 0, 0, 0]

/-- The four channel values of a pixel in tuple iteration order
(`value for value in pixel`): red, green, blue, alpha. -/
def channels (p : Pixel) : List Nat :=
  [p.1, p.2.1, p.2.2.1, p.2.2.2]

/-- PNG._encode: for each row append the filter byte 0, then the row's
pixels flattened channel by channel (the source builds a Python list by
`append`/`extend`, hence the left fold). -/
def PNG.encode (img : Image) : List Nat :=
  img.data.foldl (fun ret row => ret ++ [0] ++ row.flatMap channels) []

/-- PNG._idat: the scanline stream passed through the external `compress`
primitive (`bytearray` conversion is absorbed into the opaque primitive;
the stream's values are byte values for any byte-valued canvas). -/
def PNG.idat (compress : List Nat → List Nat) (img : Image) : List Nat :=
  compress (PNG.encode img)

/-- PNG.__init__: the `assert len(img) > 0` guard (`none` = AssertionError),
then signature, IHDR chunk (width = `len(img[0])`, height = `len(img)`,
bit depth 8, color type RGBA), IDAT chunk, empty IEND chunk. -/
def PNG.build (compress : List Nat → List Nat) (img : Image) : Option (List Nat) :=
  match img.data with
  | [] => none
  | row0 :: _ =>
      some (pngSignature ++
        PNG.gen_chunk ihdrTag (PNG.ihdr row0.length img.data.length 8 ColorType.RGBA) ++
        PNG.gen_chunk idatTag (PNG.idat compress img) ++
        PNG.gen_chunk iendTag [])

/-- Shape-preservation contract of a rasterization call: it completes (is
`some`), keeps the `width`/`height` fields, the number of rows and every
row's length, and never materializes a pixel at an address that had none
(writes are clipped to the canvas). -/
def preservesShape (res : Option Image) (img : Image) : Prop :=
  ∃ img', res = some img' ∧ img'.width = img.width ∧ img'.height = img.height ∧
    img'.data.length = img.data.length ∧
    (∀ a : Nat, (img'.data[a]?).map List.length = (img.data[a]?).map List.length) ∧
    (∀ i j : Nat, img.pix i j = none → img'.pix i j = none)

/-- Setting a list position to the value it already holds is a no-op. -/
theorem set_eq_self_of_getElem? {α : Type _} :
    ∀ {l : List α} {i : Nat} {a : α}, l[i]? = some a → l.set i a = l
  | [], i, a, h => by simp at h
  | x :: xs, 0, a, h => by
      simp only [List.getElem?_cons_zero, Option.some.injEq] at h
      simp [h]
  | x :: xs, i + 1, a, h => by
      simp only [List.getElem?_cons_succ] at h
      simp [set_eq_self_of_getElem? h]

/-- pyIdx sends an in-range natural index to itself. -/
theorem pyIdx_coe_of_lt {n i : Nat} (h : i < n) : pyIdx n (i : Int) = some i := by
  have h0 : (0 : Int) ≤ (i : Int) := Int.ofNat_nonneg i
  have h1 : (i : Int) < (n : Int) := by exact_mod_cast h
  simp [pyIdx, h0, h1]

/-- Image.draw at in-range natural coordinates updates exactly that cell. -/
theorem Image.draw_eq_of_lt {img : Image} {i j : Nat} {row : List Pixel}
    (hrow : img.data[i]? = some row) (hj : j < row.length) (c : Pixel) :
    img.draw (i : Int) (j : Int) c =
      some { img with data := img.data.set i (row.set j c) } := by
  obtain ⟨hi, -⟩ := List.getElem?_eq_some_iff.mp hrow
  simp [Image.draw, pyIdx_coe_of_lt hi, pyIdx_coe_of_lt hj, hrow]

/-- Image.getRow at an in-range natural index. -/
theorem Image.getRow_eq_of_lt {img : Image} {i : Nat} {row : List Pixel}
    (hrow : img.data[i]? = some row) : img.getRow (i : Int) = some row := by
  obtain ⟨hi, -⟩ := List.getElem?_eq_some_iff.mp hrow
  simp [Image.getRow, pyIdx_coe_of_lt hi, hrow]

theorem length_paintRowFrom (pred : Nat → Bool) (c : Pixel) :
    ∀ (j : Nat) (row : List Pixel), (paintRowFrom pred c j row).length = row.length
  | _, [] => rfl
  | j, px :: rest => by
      simp [paintRowFrom, length_paintRowFrom pred c (j + 1) rest]

theorem getElem?_paintRowFrom (pred : Nat → Bool) (c : Pixel) :
    ∀ (j : Nat) (row : List Pixel) (x : Nat),
      (paintRowFrom pred c j row)[x]? =
        (row[x]?).map (fun px => if pred (j + x) then c else px)
  | _, [], x => by simp [paintRowFrom]
  | j, px :: rest, 0 => by simp [paintRowFrom]
  | j, px :: rest, x + 1 => by
      simp only [paintRowFrom, List.getElem?_cons_succ,
        getElem?_paintRowFrom pred c (j + 1) rest x]
      have : j + 1 + x = j + (x + 1) := by omega
      rw [this]

theorem length_paintFrom (pred : Nat → Nat → Bool) (c : Pixel) :
    ∀ (i : Nat) (d : List (List Pixel)), (paintFrom pred c i d).length = d.length
  | _, [] => rfl
  | i, row :: rest => by
      simp [paintFrom, length_paintFrom pred c (i + 1) rest]

theorem getElem?_paintFrom (pred : Nat → Nat → Bool) (c : Pixel) :
    ∀ (i : Nat) (d : List (List Pixel)) (a : Nat),
      (paintFrom pred c i d)[a]? =
        (d[a]?).map (fun row => paintRowFrom (pred (i + a)) c 0 row)
  | _, [], a => by simp [paintFrom]
  | i, row :: rest, 0 => by simp [paintFrom]
  | i, row :: rest, a + 1 => by
      simp only [paintFrom, List.getElem?_cons_succ,
        getElem?_paintFrom pred c (i + 1) rest a]
      have : i + 1 + a = i + (a + 1) := by omega
      rw [this]

/-- The inner scan loop repaints the suffix of row `i` from column `j` on. -/
theorem drawLoopJ_eq (pred : Nat → Nat → Bool) (c : Pixel) (i : Nat) :
    ∀ (k j : Nat) (img : Image) (row : List Pixel),
      img.data[i]? = some row → j + k = row.length →
      drawLoopJ pred c i j k img =
        some { img with data := img.data.set i (row.take j ++ paintRowFrom (pred i) c j (row.drop j)) }
  | 0, j, img, row, hrow, hlen => by
      have hj : j = row.length := by omega
      subst hj
      simp [drawLoopJ, paintRowFrom, set_eq_self_of_getElem? hrow]
  | k + 1, j, img, row, hrow, hlen => by
      have hj : j < row.length := by omega
      obtain ⟨hi, -⟩ := List.getElem?_eq_some_iff.mp hrow
      have hdrop : row.drop j = row[j] :: row.drop (j + 1) := List.drop_eq_getElem_cons hj
      have htakelen : (row.take j).length = j := by
        simp [List.length_take, Nat.min_eq_left (Nat.le_of_lt hj)]
      by_cases hp : pred i j
      · rw [drawLoopJ, if_pos hp, Image.draw_eq_of_lt hrow hj c]
        have hrow2 : (img.data.set i (row.set j c))[i]? = some (row.set j c) :=
          List.getElem?_set_self hi
        have hlen2 : (j + 1) + k = (row.set j c).length := by
          simp [List.length_set]; omega
        simp only [Option.bind_eq_bind, Option.some_bind]
        rw [drawLoopJ_eq pred c i k (j + 1) _ (row.set j c) hrow2 hlen2]
        rw [List.set_set]
        have htake : (row.set j c).take (j + 1) = row.take j ++ [c] := by
          rw [List.set_take, List.take_succ, List.getElem?_eq_getElem hj]
          rw [List.set_append_right _ _ (le_of_eq htakelen)]
          simp [htakelen]
        have hdrop2 : (row.set j c).drop (j + 1) = row.drop (j + 1) := by
          rw [List.drop_set, if_pos (Nat.lt_succ_self j)]
        rw [htake, hdrop2, hdrop]
        simp [paintRowFrom, hp]
      · rw [drawLoopJ, if_neg hp]
        simp only [Option.bind_eq_bind, Option.some_bind]
        rw [drawLoopJ_eq pred c i k (j + 1) img row hrow (by omega)]
        have htake : row.take (j + 1) = row.take j ++ [row[j]] := by
          rw [List.take_succ, List.getElem?_eq_getElem hj]
          rfl
        rw [htake, hdrop]
        simp only [paintRowFrom]
        rw [if_neg hp]
        simp only [List.append_assoc, List.singleton_append]

/-- One full row pass repaints exactly the addressed row. -/
theorem drawRowI_eq (pred : Nat → Nat → Bool) (c : Pixel) (i : Nat)
    (img : Image) (row : List Pixel) (hrow : img.data[i]? = some row) :
    drawRowI pred c i img =
      some { img with data := img.data.set i (paintRowFrom (pred i) c 0 row) } := by
  rw [drawRowI, Image.getRow_eq_of_lt hrow]
  simp only [Option.bind_eq_bind, Option.some_bind]
  rw [drawLoopJ_eq pred c i row.length 0 img row hrow (by omega)]
  simp

/-- The outer scan loop repaints every row from index `i` on. -/
theorem drawLoopI_eq (pred : Nat → Nat → Bool) (c : Pixel) :
    ∀ (k i : Nat) (img : Image), i + k = img.data.length →
      drawLoopI pred c i k img =
        some { img with data := img.data.take i ++ paintFrom pred c i (img.data.drop i) }
  | 0, i, img, hlen => by
      have hi : i = img.data.length := by omega
      subst hi
      simp [drawLoopI, paintFrom]
  | k + 1, i, img, hlen => by
      have hi : i < img.data.length := by omega
      have hrow : img.data[i]? = some img.data[i] := List.getElem?_eq_getElem hi
      have htakelen : (img.data.take i).length = i := by
        simp [List.length_take, Nat.min_eq_left (Nat.le_of_lt hi)]
      rw [drawLoopI, drawRowI_eq pred c i img img.data[i] hrow]
      simp only [Option.bind_eq_bind, Option.some_bind]
      have hlen2 : (i + 1) + k =
          (img.data.set i (paintRowFrom (pred i) c 0 img.data[i])).length := by
        simp [List.length_set]; omega
      rw [drawLoopI_eq pred c k (i + 1) _ hlen2]
      have htake : (img.data.set i (paintRowFrom (pred i) c 0 img.data[i])).take (i + 1) =
          img.data.take i ++ [paintRowFrom (pred i) c 0 img.data[i]] := by
        rw [List.set_take, List.take_succ, List.getElem?_eq_getElem hi]
        rw [List.set_append_right _ _ (le_of_eq htakelen)]
        simp [htakelen]
      have hdrop2 : (img.data.set i (paintRowFrom (pred i) c 0 img.data[i])).drop (i + 1) =
          img.data.drop (i + 1) := by
        rw [List.drop_set, if_pos (Nat.lt_succ_self i)]
      rw [htake, hdrop2, List.drop_eq_getElem_cons hi]
      simp [paintFrom]

/-- The shared brute-force scan always succeeds and equals the total
`Image.paint` description. -/
theorem scanFill_eq (pred : Nat → Nat → Bool) (c : Pixel) (img : Image) :
    scanFill pred c img = some (img.paint pred c) := by
  rw [scanFill, drawLoopI_eq pred c img.data.length 0 img (by omega)]
  simp [Image.paint]

/-- Pointwise effect of a full scan: covered cells get the fill color (where
a cell exists at all), the rest are untouched. -/
theorem Image.pix_paint (pred : Nat → Nat → Bool) (c : Pixel) (img : Image)
    (i j : Nat) :
    (img.paint pred c).pix i j =
      if pred i j then (img.pix i j).map (fun _ => c) else img.pix i j := by
  unfold Image.pix Image.paint
  simp only [getElem?_paintFrom pred c 0, Nat.zero_add]
  cases hrow : img.data[i]? with
  | none => cases hpij : pred i j <;> simp
  | some row =>
      simp only [Option.map_some', Option.some_bind,
        getElem?_paintRowFrom (pred i) c 0 row j, Nat.zero_add]
      cases hpx : row[j]? <;> cases hpij : pred i j <;> simp [hpij]

/-- A full scan keeps the number of rows. -/
theorem Image.paint_data_length (pred : Nat → Nat → Bool) (c : Pixel)
    (img : Image) : (img.paint pred c).data.length = img.data.length := by
  simp [Image.paint, length_paintFrom]

/-- A full scan keeps every row's length. -/
theorem Image.paint_row_length (pred : Nat → Nat → Bool) (c : Pixel)
    (img : Image) (a : Nat) :
    ((img.paint pred c).data[a]?).map List.length = (img.data[a]?).map List.length := by
  simp only [Image.paint, getElem?_paintFrom pred c 0, Nat.zero_add]
  cases img.data[a]? <;> simp [length_paintRowFrom]

/-- Every brute-force scan satisfies the shape-preservation contract. -/
theorem scanFill_preservesShape (pred : Nat → Nat → Bool) (c : Pixel)
    (img : Image) : preservesShape (scanFill pred c img) img := by
  refine ⟨img.paint pred c, scanFill_eq pred c img, rfl, rfl,
    Image.paint_data_length pred c img, Image.paint_row_length pred c img, ?_⟩
  intro i j h
  rw [Image.pix_paint, h]
  cases pred i j <;> simp

/-- zlib's streaming contract for the CRC-32 implementation: checksumming a
concatenation equals checksumming the second part seeded with the first
part's checksum. -/
theorem crc32_append (a b : List Nat) (init : Nat) :
    crc32 (a ++ b) init = crc32 b (crc32 a init) := by
  unfold crc32
  rw [List.foldl_append]
  congr 1
  rw [Nat.xor_cancel_right]

/-- PNG._checksum seeds the payload CRC with the tag CRC, which equals the
one-shot CRC-32 of tag ++ payload. -/
theorem checksum_eq (tag data : List Nat) :
    PNG.checksum tag data = crc32 (tag ++ data) 0 := by
  unfold PNG.checksum
  rw [crc32_append]

/-- The imperative append/extend accumulation in PNG._encode, relative to an
arbitrary accumulator. -/
theorem encode_foldl_eq :
    ∀ (rows : List (List Pixel)) (acc : List Nat),
      rows.foldl (fun ret row => ret ++ [0] ++ row.flatMap channels) acc =
        acc ++ rows.flatMap (fun row => 0 :: row.flatMap channels)
  | [], acc => by simp
  | row :: rest, acc => by
      simp only [List.foldl_cons, List.flatMap_cons, encode_foldl_eq rest]
      simp [List.append_assoc]

/-- PNG._encode produces exactly the scanline stream: per row a filter byte
0 followed by the row's channel values. -/
theorem encode_eq (img : Image) :
    PNG.encode img = img.data.flatMap (fun row => 0 :: row.flatMap channels) := by
  unfold PNG.encode
  rw [encode_foldl_eq]
  simp

/-- pyIdx raises exactly on indices outside the Python-valid band [-n, n). -/
theorem pyIdx_eq_none_iff (n : Nat) (i : Int) :
    pyIdx n i = none ↔ (i < -(n : Int) ∨ (n : Int) ≤ i) := by
  unfold pyIdx
  by_cases h1 : 0 ≤ i ∧ i < (n : Int)
  · simp only [h1, if_true]
    constructor
    · intro h; exact absurd h (by simp)
    · intro h; omega
  · by_cases h2 : -(n : Int) ≤ i ∧ i < 0
    · simp only [h1, if_false, h2, if_true]
      constructor
      · intro h; exact absurd h (by simp)
      · intro h; omega
    · simp only [h1, if_false, h2]
      constructor
      · intro _; omega
      · intro _; trivial

/-- A resolved Python index lies below the list length. -/
theorem pyIdx_lt {n : Nat} {i : Int} {k : Nat} (h : pyIdx n i = some k) : k < n := by
  unfold pyIdx at h
  split at h
  next h1 => injection h with h2; omega
  next h1 =>
    split at h
    next h2 => injection h with h3; omega
    next h2 => simp at h

/-- On a rectangular canvas, every row index below the height resolves to a
row of the common width. -/
theorem rect_row_of_lt {img : Image} {w h : Nat} (hh : img.data.length = h)
    (hw : ∀ row ∈ img.data, row.length = w) {a : Nat} (ha : a < h) :
    ∃ row, img.data[a]? = some row ∧ row.length = w := by
  have ha2 : a < img.data.length := by omega
  exact ⟨img.data[a], List.getElem?_eq_getElem ha2, hw _ (List.getElem_mem ha2)⟩

/-- A single-pixel write on a rectangular canvas raises exactly when the row
or column is outside the Python-valid band. -/
theorem draw_none_iff {img : Image} {w h : Nat} (hh : img.data.length = h)
    (hw : ∀ row ∈ img.data, row.length = w) (y x : Int) (c : Pixel) :
    img.draw y x c = none ↔
      (y < -(h : Int) ∨ (h : Int) ≤ y ∨ x < -(w : Int) ∨ (w : Int) ≤ x) := by
  unfold Image.draw
  rw [hh]
  cases hpy : pyIdx h y with
  | none =>
      have hy := (pyIdx_eq_none_iff h y).mp hpy
      simp only [Option.bind_eq_bind, Option.none_bind]
      constructor
      · intro _
        rcases hy with hy | hy
        · exact Or.inl hy
        · exact Or.inr (Or.inl hy)
      · intro _; trivial
  | some iy =>
      have hylt : iy < h := pyIdx_lt hpy
      have hy : ¬(y < -(h : Int) ∨ (h : Int) ≤ y) := by
        intro hcon
        rw [(pyIdx_eq_none_iff h y).mpr hcon] at hpy
        exact Option.noConfusion hpy
      obtain ⟨row, hrow, hrlen⟩ := rect_row_of_lt hh hw hylt
      simp only [Option.bind_eq_bind, Option.some_bind]
      rw [hrow]
      simp only [Option.some_bind]
      rw [hrlen]
      cases hpx : pyIdx w x with
      | none =>
          have hx := (pyIdx_eq_none_iff w x).mp hpx
          simp only [Option.none_bind]
          constructor
          · intro _
            rcases hx with hx | hx
            · exact Or.inr (Or.inr (Or.inl hx))
            · exact Or.inr (Or.inr (Or.inr hx))
          · intro _; trivial
      | some ix =>
          have hx : ¬(x < -(w : Int) ∨ (w : Int) ≤ x) := by
            intro hcon
            rw [(pyIdx_eq_none_iff w x).mpr hcon] at hpx
            exact Option.noConfusion hpx
          simp only [Option.some_bind]
          constructor
          · intro hcc; simp at hcc
          · intro hcon; exact absurd hcon (by tauto)

/-- A single-pixel read on a rectangular canvas raises exactly when the row
or column is outside the Python-valid band. -/
theorem read_none_iff {img : Image} {w h : Nat} (hh : img.data.length = h)
    (hw : ∀ row ∈ img.data, row.length = w) (y x : Int) :
    img.read y x = none ↔
      (y < -(h : Int) ∨ (h : Int) ≤ y ∨ x < -(w : Int) ∨ (w : Int) ≤ x) := by
  unfold Image.read Image.getRow
  rw [hh]
  cases hpy : pyIdx h y with
  | none =>
      have hy := (pyIdx_eq_none_iff h y).mp hpy
      simp only [Option.bind_eq_bind, Option.none_bind]
      constructor
      · intro _
        rcases hy with hy | hy
        · exact Or.inl hy
        · exact Or.inr (Or.inl hy)
      · intro _; trivial
  | some iy =>
      have hylt : iy < h := pyIdx_lt hpy
      have hy : ¬(y < -(h : Int) ∨ (h : Int) ≤ y) := by
        intro hcon
        rw [(pyIdx_eq_none_iff h y).mpr hcon] at hpy
        exact Option.noConfusion hpy
      obtain ⟨row, hrow, hrlen⟩ := rect_row_of_lt hh hw hylt
      simp only [Option.bind_eq_bind, Option.some_bind]
      rw [hrow]
      simp only [Option.some_bind]
      rw [hrlen]
      cases hpx : pyIdx w x with
      | none =>
          have hx := (pyIdx_eq_none_iff w x).mp hpx
          simp only [Option.none_bind]
          constructor
          · intro _
            rcases hx with hx | hx
            · exact Or.inr (Or.inr (Or.inl hx))
            · exact Or.inr (Or.inr (Or.inr hx))
          · intro _; trivial
      | some ix =>
          have hxlt : ix < w := pyIdx_lt hpx
          have hx : ¬(x < -(w : Int) ∨ (w : Int) ≤ x) := by
            intro hcon
            rw [(pyIdx_eq_none_iff w x).mpr hcon] at hpx
            exact Option.noConfusion hpx
          have hxrow : ix < row.length := by omega
          simp only [Option.some_bind]
          rw [List.getElem?_eq_getElem hxrow]
          constructor
          · intro hcc; simp at hcc
          · intro hcon; exact absurd hcon (by tauto)

/-- A Python-valid access on a rectangular canvas resolves the row index to
itself when nonnegative and to `height + row` when negative (likewise the
column): the read returns exactly the pixel at the resolved address, and the
write sets exactly it. -/
theorem read_draw_resolve {img : Image} {w h : Nat} (hh : img.data.length = h)
    (hw : ∀ row ∈ img.data, row.length = w) (y x : Int) (c : Pixel)
    (hy1 : -(h : Int) ≤ y) (hy2 : y < (h : Int))
    (hx1 : -(w : Int) ≤ x) (hx2 : x < (w : Int)) :
    img.read y x =
      img.pix (if 0 ≤ y then y.toNat else ((h : Int) + y).toNat)
        (if 0 ≤ x then x.toNat else ((w : Int) + x).toNat) ∧
    (img.draw y x c).bind
      (fun im => im.pix (if 0 ≤ y then y.toNat else ((h : Int) + y).toNat)
        (if 0 ≤ x then x.toNat else ((w : Int) + x).toNat)) = some c := by
  have hpy : pyIdx h y = some (if 0 ≤ y then y.toNat else ((h : Int) + y).toNat) := by
    unfold pyIdx
    by_cases hy0 : 0 ≤ y
    · rw [if_pos ⟨hy0, hy2⟩, if_pos hy0]
    · rw [if_neg (by tauto), if_pos ⟨hy1, by omega⟩, if_neg hy0]
  have hpx : pyIdx w x = some (if 0 ≤ x then x.toNat else ((w : Int) + x).toNat) := by
    unfold pyIdx
    by_cases hx0 : 0 ≤ x
    · rw [if_pos ⟨hx0, hx2⟩, if_pos hx0]
    · rw [if_neg (by tauto), if_pos ⟨hx1, by omega⟩, if_neg hx0]
  have hylt : (if 0 ≤ y then y.toNat else ((h : Int) + y).toNat) < h := by
    by_cases hy0 : 0 ≤ y
    · rw [if_pos hy0]; omega
    · rw [if_neg hy0]; omega
  have hxlt : (if 0 ≤ x then x.toNat else ((w : Int) + x).toNat) < w := by
    by_cases hx0 : 0 ≤ x
    · rw [if_pos hx0]; omega
    · rw [if_neg hx0]; omega
  obtain ⟨row, hrow, hrlen⟩ := rect_row_of_lt hh hw hylt
  constructor
  · unfold Image.read Image.getRow Image.pix
    rw [hh, hpy]
    simp only [Option.bind_eq_bind, Option.some_bind]
    rw [hrow]
    simp only [Option.some_bind]
    rw [hrlen, hpx]
    simp only [Option.some_bind]
  · unfold Image.draw Image.pix
    rw [hh, hpy]
    simp only [Option.bind_eq_bind, Option.some_bind]
    rw [hrow]
    simp only [Option.some_bind]
    rw [hrlen, hpx]
    simp only [Option.some_bind]
    rw [List.getElem?_set_self (by rw [hh]; exact hylt)]
    simp only [Option.some_bind]
    rw [List.getElem?_set_self (by rw [hrlen]; exact hxlt)]
/-- C1: the claim as stated is false: the constructor performs no dimension
validation, so creation with width 0 (≤ 0) does not fail with
InvalidDimensions but returns a canvas. -/
theorem c1_counterexample : ((0 : Int) ≤ 0) ∧ (Image.initOpt 0 1).isSome = true :=
  ⟨le_refl 0, rfl⟩

/-- C1 (amended): canvas creation never fails for any width and height — no
InvalidDimensions check exists.  The constructed canvas has `max height 0`
rows, each of length `max width 0`, and every pixel is transparent black
(0,0,0,0); in particular for width, height > 0 every pixel is BLANK. -/
theorem c1_create_blank (w h : Int) :
    Image.initOpt w h = some (Image.init w h) ∧
    (Image.init w h).data.length = h.toNat ∧
    (∀ i : Nat, i < h.toNat → ((Image.init w h).data[i]?).map List.length = some w.toNat) ∧
    (∀ i j : Nat, (Image.init w h).pix i j =
      if i < h.toNat ∧ j < w.toNat then some BLANK else none) := by
  refine ⟨rfl, by simp [Image.init], ?_, ?_⟩
  · intro i hi
    simp [Image.init, List.getElem?_replicate, hi]
  · intro i j
    unfold Image.pix Image.init
    simp only [List.getElem?_replicate]
    by_cases hi : i < h.toNat
    · by_cases hj : j < w.toNat
      · simp [hi, hj, List.getElem?_replicate]
      · simp [hi, hj, List.getElem?_replicate]
    · simp [hi]

/-- C2: the claim as stated is false: the out-of-[0,height) row index -1
does not make the write fail — Python list indexing silently wraps negative
indices, so the write succeeds and changes pixel (1,0) of a 2x2 canvas. -/
theorem c2_counterexample :
    (¬ (0 : Int) ≤ -1) ∧
    ((Image.init 2 2).draw (-1) 0 RED).isSome = true ∧
    ((Image.init 2 2).draw (-1) 0 RED).bind (fun im => im.pix 1 0) = some RED ∧
    (Image.init 2 2).pix 1 0 = some BLANK := by decide

/-- C2 (amended): on any rectangular canvas with h rows of w pixels, a write
or read with row outside [-h, h) or col outside [-w, w) fails with
IndexError (and, failing, changes no pixel), but a Python-valid index
resolves to itself when nonnegative and wraps to h+row / w+col when
negative: such an out-of-[0,·) access succeeds, the read returning the
wrapped pixel and the write setting it, instead of failing. -/
theorem c2_bounds_and_wrap (img : Image) (w h : Nat) (y x : Int) (c : Pixel)
    (hh : img.data.length = h) (hw : ∀ row ∈ img.data, row.length = w) :
    (img.draw y x c = none ↔
      (y < -(h : Int) ∨ (h : Int) ≤ y ∨ x < -(w : Int) ∨ (w : Int) ≤ x)) ∧
    (img.read y x = none ↔
      (y < -(h : Int) ∨ (h : Int) ≤ y ∨ x < -(w : Int) ∨ (w : Int) ≤ x)) ∧
    (-(h : Int) ≤ y → y < (h : Int) → -(w : Int) ≤ x → x < (w : Int) →
      img.read y x =
        img.pix (if 0 ≤ y then y.toNat else ((h : Int) + y).toNat)
          (if 0 ≤ x then x.toNat else ((w : Int) + x).toNat) ∧
      (img.draw y x c).bind
        (fun im => im.pix (if 0 ≤ y then y.toNat else ((h : Int) + y).toNat)
          (if 0 ≤ x then x.toNat else ((w : Int) + x).toNat)) = some c) :=
  ⟨draw_none_iff hh hw y x c, read_none_iff hh hw y x,
    fun hy1 hy2 hx1 hx2 => read_draw_resolve hh hw y x c hy1 hy2 hx1 hx2⟩

/-- Witness for C2 (amended) on a concrete 2x2 canvas with four distinct
pixels at the negative in-band address (-1,-1): the read returns the
wrapped pixel (1,1), which is BLUE, and the write overwrites exactly it. -/
theorem c2_witness :
    (⟨2, 2, [[BLACK, RED], [GREEN, BLUE]]⟩ : Image).read (-1) (-1) = some BLUE ∧
    ((⟨2, 2, [[BLACK, RED], [GREEN, BLUE]]⟩ : Image).draw (-1) (-1) WHITE).bind
      (fun im => im.pix 1 1) = some WHITE := by
  obtain ⟨h1, h2⟩ :=
    (c2_bounds_and_wrap ⟨2, 2, [[BLACK, RED], [GREEN, BLUE]]⟩ 2 2 (-1) (-1) WHITE
      (by decide) (by decide)).2.2 (by decide) (by decide) (by decide) (by decide)
  constructor
  · rw [h1]; decide
  · exact h2

/-- C3: the claim as stated is false: on a 1x2 canvas whose pixel (0,1) is
already GREEN, drawing a radius-0 GREEN circle at the origin leaves pixel
(0,1) equal to GREEN although its squared distance exceeds the radius —
"pixel equals C iff inside" fails in the only-if direction. -/
theorem c3_counterexample :
    (((Image.init 2 1).draw 0 1 GREEN).bind
        (fun im => im.draw_circle ⟨0, 0⟩ 0 GREEN)).bind (fun im => im.pix 0 1) =
      some GREEN ∧
    ¬(((0 : Int) - 0) ^ 2 + ((1 : Int) - 0) ^ 2 ≤ 0 ^ 2) := by decide

/-- C3 (amended): after draw_circle, every in-bounds pixel with
(row−center.x)² + (col−center.y)² ≤ radius² equals C, and every pixel not
satisfying the predicate is unchanged; the biconditional of the original
claim holds only when no pixel outside the disc already equals C. -/
theorem c3_draw_circle (img : Image) (pos : Vec2) (radius : Int) (c : Pixel) :
    ∃ img', img.draw_circle pos radius c = some img' ∧
      img'.width = img.width ∧ img'.height = img.height ∧
      img'.data.length = img.data.length ∧
      (∀ i j : Nat, img'.pix i j =
        if ((i : Int) - pos.x) ^ 2 + ((j : Int) - pos.y) ^ 2 ≤ radius ^ 2
        then (img.pix i j).map (fun _ => c) else img.pix i j) := by
  refine ⟨img.paint (fun i j =>
      decide (((i : Int) - pos.x) * ((i : Int) - pos.x) +
        ((j : Int) - pos.y) * ((j : Int) - pos.y) ≤ radius * radius)) c,
    ?_, rfl, rfl, Image.paint_data_length _ c img, ?_⟩
  · unfold Image.draw_circle
    exact scanFill_eq _ _ _
  · intro i j
    rw [Image.pix_paint]
    simp only [decide_eq_true_eq, pow_two]

/-- C4: after draw_rect, every in-bounds pixel with col in
[pos.x, pos.x+length] and row in [pos.y, pos.y+height] (both inclusive)
equals C, and every pixel strictly outside that box is unchanged. -/
theorem c4_draw_rect (img : Image) (pos : Vec2) (L H : Int) (c : Pixel) :
    ∃ img', img.draw_rect pos L H c = some img' ∧
      img'.width = img.width ∧ img'.height = img.height ∧
      img'.data.length = img.data.length ∧
      (∀ i j : Nat, img'.pix i j =
        if pos.x ≤ (j : Int) ∧ (j : Int) ≤ pos.x + L ∧
           pos.y ≤ (i : Int) ∧ (i : Int) ≤ pos.y + H
        then (img.pix i j).map (fun _ => c) else img.pix i j) := by
  refine ⟨img.paint (fun i j =>
      decide (pos.x ≤ (j : Int) ∧ (j : Int) ≤ pos.x + L ∧
        pos.y ≤ (i : Int) ∧ (i : Int) ≤ pos.y + H)) c,
    ?_, rfl, rfl, Image.paint_data_length _ c img, ?_⟩
  · unfold Image.draw_rect
    exact scanFill_eq _ _ _
  · intro i j
    rw [Image.pix_paint]
    simp only [decide_eq_true_eq]

/-- The edge function vanishes when the test point is the edge's start. -/
theorem edgeFunction_self_left (a b : Vec2) : edgeFunction a b a = 0 := by
  unfold edgeFunction; ring

/-- The edge function vanishes when the test point is the edge's end. -/
theorem edgeFunction_self_right (a b : Vec2) : edgeFunction a b b = 0 := by
  unfold edgeFunction; ring

/-- The edge function is invariant under cyclic rotation of its arguments. -/
theorem edgeFunction_cyclic (a b c : Vec2) :
    edgeFunction b c a = edgeFunction a b c := by
  unfold edgeFunction; ring

/-- C5: for a clockwise-wound triangle (nonnegative signed area, the
convention the source documents), draw_triangle sets to C exactly the
in-bounds pixels whose three edge values are all nonnegative, leaves all
other pixels unchanged, and the three vertices always satisfy the inside
test (hence are filled whenever they lie on the canvas). -/
theorem c5_draw_triangle (img : Image) (p1 p2 p3 : Vec2) (c : Pixel)
    (hcw : 0 ≤ edgeFunction p1 p2 p3) :
    ∃ img', img.draw_triangle p1 p2 p3 c = some img' ∧
      img'.width = img.width ∧ img'.height = img.height ∧
      img'.data.length = img.data.length ∧
      (∀ i j : Nat, img'.pix i j =
        if 0 ≤ edgeFunction p1 p2 ⟨(j : Int), (i : Int)⟩ ∧
           0 ≤ edgeFunction p2 p3 ⟨(j : Int), (i : Int)⟩ ∧
           0 ≤ edgeFunction p3 p1 ⟨(j : Int), (i : Int)⟩
        then (img.pix i j).map (fun _ => c) else img.pix i j) ∧
      (∀ v : Vec2, v = p1 ∨ v = p2 ∨ v = p3 →
        0 ≤ edgeFunction p1 p2 v ∧ 0 ≤ edgeFunction p2 p3 v ∧
          0 ≤ edgeFunction p3 p1 v) ∧
      (∀ v : Vec2, v = p1 ∨ v = p2 ∨ v = p3 → 0 ≤ v.x → 0 ≤ v.y →
        img'.pix v.y.toNat v.x.toNat =
          (img.pix v.y.toNat v.x.toNat).map (fun _ => c)) := by
  have hverts : ∀ v : Vec2, v = p1 ∨ v = p2 ∨ v = p3 →
      0 ≤ edgeFunction p1 p2 v ∧ 0 ≤ edgeFunction p2 p3 v ∧
        0 ≤ edgeFunction p3 p1 v := by
    intro v hv
    rcases hv with rfl | rfl | rfl
    · exact ⟨le_of_eq (edgeFunction_self_left _ _).symm,
        by rw [edgeFunction_cyclic]; exact hcw,
        le_of_eq (edgeFunction_self_right _ _).symm⟩
    · exact ⟨le_of_eq (edgeFunction_self_right _ _).symm,
        le_of_eq (edgeFunction_self_left _ _).symm,
        by rw [edgeFunction_cyclic, edgeFunction_cyclic]; exact hcw⟩
    · exact ⟨hcw, le_of_eq (edgeFunction_self_right _ _).symm,
        le_of_eq (edgeFunction_self_left _ _).symm⟩
  have hpix : ∀ i j : Nat,
      (img.paint (fun i j =>
        decide (0 ≤ edgeFunction p1 p2 ⟨(j : Int), (i : Int)⟩ ∧
          0 ≤ edgeFunction p2 p3 ⟨(j : Int), (i : Int)⟩ ∧
          0 ≤ edgeFunction p3 p1 ⟨(j : Int), (i : Int)⟩)) c).pix i j =
        if 0 ≤ edgeFunction p1 p2 ⟨(j : Int), (i : Int)⟩ ∧
           0 ≤ edgeFunction p2 p3 ⟨(j : Int), (i : Int)⟩ ∧
           0 ≤ edgeFunction p3 p1 ⟨(j : Int), (i : Int)⟩
        then (img.pix i j).map (fun _ => c) else img.pix i j := by
    intro i j
    rw [Image.pix_paint]
    simp only [decide_eq_true_eq]
  refine ⟨img.paint (fun i j =>
      decide (0 ≤ edgeFunction p1 p2 ⟨(j : Int), (i : Int)⟩ ∧
        0 ≤ edgeFunction p2 p3 ⟨(j : Int), (i : Int)⟩ ∧
        0 ≤ edgeFunction p3 p1 ⟨(j : Int), (i : Int)⟩)) c,
    by unfold Image.draw_triangle; exact scanFill_eq _ _ _, rfl, rfl,
    Image.paint_data_length _ c img, hpix, hverts, ?_⟩
  intro v hv hvx hvy
  have hpoint : (⟨((v.x.toNat : Nat) : Int), ((v.y.toNat : Nat) : Int)⟩ : Vec2) = v := by
    obtain ⟨vx, vy⟩ := v
    simp only [Vec2.mk.injEq]
    exact ⟨Int.toNat_of_nonneg hvx, Int.toNat_of_nonneg hvy⟩
  rw [hpix v.y.toNat v.x.toNat, hpoint, if_pos (hverts v hv)]

/-- Witness for C5 at a concrete clockwise triangle on a 2x2 canvas. -/
theorem c5_witness :
    0 ≤ edgeFunction ⟨0, 1⟩ ⟨0, 0⟩ ⟨1, 1⟩ ∧
    ∃ img', (Image.init 2 2).draw_triangle ⟨0, 1⟩ ⟨0, 0⟩ ⟨1, 1⟩ PURPLE = some img' := by
  refine ⟨by decide, ?_⟩
  obtain ⟨img', heq, -⟩ :=
    c5_draw_triangle (Image.init 2 2) ⟨0, 1⟩ ⟨0, 0⟩ ⟨1, 1⟩ PURPLE (by decide)
  exact ⟨img', heq⟩

/-- C6: draw_line fails (ZeroDivisionError in the slope computation, before
any pixel is visited) exactly when the endpoints share an x coordinate; for
p1.x ≠ p2.x the call never fails. -/
theorem c6_draw_line (img : Image) (p1 p2 : Vec2) (t : Int) (c : Pixel) :
    img.draw_line p1 p2 t c = none ↔ p1.x = p2.x := by
  unfold Image.draw_line
  by_cases hx : p1.x = p2.x
  · simp [hx]
  · rw [if_neg hx]
    simp only [scanFill_eq]
    simp [hx]

/-- C10: every rasterization call — draw_rect, draw_circle, draw_triangle
for arbitrary shape parameters, and draw_line whenever p1.x ≠ p2.x —
completes without error, keeps the width/height fields, the number of rows
and every row's length, and writes no pixel outside the canvas. -/
theorem c10_raster_total (img : Image) (pos p1 p2 p3 : Vec2)
    (L H radius t : Int) (c : Pixel) :
    preservesShape (img.draw_rect pos L H c) img ∧
    preservesShape (img.draw_circle pos radius c) img ∧
    preservesShape (img.draw_triangle p1 p2 p3 c) img ∧
    (p1.x ≠ p2.x → preservesShape (img.draw_line p1 p2 t c) img) := by
  refine ⟨?_, ?_, ?_, ?_⟩
  · unfold Image.draw_rect
    exact scanFill_preservesShape _ _ _
  · unfold Image.draw_circle
    exact scanFill_preservesShape _ _ _
  · unfold Image.draw_triangle
    exact scanFill_preservesShape _ _ _
  · intro hx
    unfold Image.draw_line
    rw [if_neg hx]
    exact scanFill_preservesShape _ _ _

/-- Witness for C10 at a concrete non-vertical line on a 2x2 canvas. -/
theorem c10_witness :
    ((⟨0, 0⟩ : Vec2).x ≠ (⟨1, 1⟩ : Vec2).x) ∧
    preservesShape ((Image.init 2 2).draw_line ⟨0, 0⟩ ⟨1, 1⟩ 1 RED) (Image.init 2 2) := by
  refine ⟨by decide, ?_⟩
  exact (c10_raster_total (Image.init 2 2) ⟨0, 0⟩ ⟨0, 0⟩ ⟨1, 1⟩ ⟨0, 0⟩
    0 0 0 1 RED).2.2.2 (by decide)

/-- C8: every chunk is framed as the 4-byte big-endian payload length, the
4-byte tag, the payload, then a 4-byte big-endian checksum equal to CRC-32
over the tag concatenated with the payload. -/
theorem c8_chunk_framing (tag data : List Nat) :
    PNG.gen_chunk tag data =
      u32be data.length ++ tag ++ data ++ u32be (crc32 (tag ++ data) 0) := by
  unfold PNG.gen_chunk
  rw [checksum_eq]

/-- C9: the IDAT payload is compress applied to the scanline stream: for
each row top to bottom one filter byte 0, then the row's pixels left to
right flattened channel by channel in r,g,b,a order. -/
theorem c9_idat_scanlines (compress : List Nat → List Nat) (img : Image) :
    PNG.encode img = img.data.flatMap (fun row => 0 :: row.flatMap channels) ∧
    PNG.idat compress img =
      compress (img.data.flatMap (fun row => 0 :: row.flatMap channels)) := by
  refine ⟨encode_eq img, ?_⟩
  unfold PNG.idat
  rw [encode_eq]

/-- C7: encoding a non-empty canvas yields exactly the 8-byte PNG signature,
an IHDR chunk whose 13-byte payload is width (first row length) and height
as big-endian u32 followed by bit depth 8, color type 6 and three zero
bytes, a single IDAT chunk, and a final zero-length IEND chunk — nothing
else. -/
theorem c7_png_layout (compress : List Nat → List Nat) (wf hf : Int)
    (r : List Pixel) (rest : List (List Pixel)) :
    PNG.build compress ⟨wf, hf, r :: rest⟩ =
      some (pngSignature ++
        (u32be 13 ++ ihdrTag ++
          (u32be r.length ++ u32be (rest.length + 1) ++ [8, 6, 0, 0, 0]) ++
          u32be (crc32 (ihdrTag ++
            (u32be r.length ++ u32be (rest.length + 1) ++ [8, 6, 0, 0, 0])) 0)) ++
        (u32be (compress (PNG.encode ⟨wf, hf, r :: rest⟩)).length ++ idatTag ++
          compress (PNG.encode ⟨wf, hf, r :: rest⟩) ++
          u32be (crc32 (idatTag ++ compress (PNG.encode ⟨wf, hf, r :: rest⟩)) 0)) ++
        (u32be 0 ++ iendTag ++ u32be (crc32 iendTag 0))) := by
  have hbuild : PNG.build compress ⟨wf, hf, r :: rest⟩ =
      some (pngSignature ++
        PNG.gen_chunk ihdrTag (PNG.ihdr r.length (rest.length + 1) 8 ColorType.RGBA) ++
        PNG.gen_chunk idatTag (PNG.idat compress ⟨wf, hf, r :: rest⟩) ++
        PNG.gen_chunk iendTag []) := rfl
  rw [hbuild]
  unfold PNG.gen_chunk PNG.ihdr PNG.idat
  rw [checksum_eq, checksum_eq, checksum_eq]
  simp [u32be, ColorType.value, List.append_assoc]

/-- Witness for C1 (amended) at the concrete dimensions 3x2. -/
theorem c1_witness :
    (0 : Nat) < (2 : Int).toNat ∧
    ((Image.init 3 2).data[0]?).map List.length = some (3 : Int).toNat :=
  ⟨by decide, (c1_create_blank 3 2).2.2.1 0 (by decide)⟩

/-- Witness for C6 at a concrete vertical endpoint pair. -/
theorem c6_witness :
    (Image.init 2 2).draw_line ⟨0, 0⟩ ⟨0, 5⟩ 1 RED = none ↔
      (⟨0, 0⟩ : Vec2).x = (⟨0, 5⟩ : Vec2).x :=
  c6_draw_line (Image.init 2 2) ⟨0, 0⟩ ⟨0, 5⟩ 1 RED
